import Mathlib

/-!
Verification of the Enterprise-Scheduler core (src/app.py): data model
(Event, Resource, EventResourceAllocation), the conflict-detection query
`check_conflicts`, the allocation/event lifecycle routes, the dashboard
utilization figure, the conflicts listing and the utilization report.

Timestamps (`db.DateTime` columns) are modelled as integers (seconds since an
arbitrary epoch); all comparisons in the source are order comparisons, which
this preserves.  Stored state is the committed database: a `DB` value holds
the three tables plus the autoincrement counters of the primary keys.  Routes
that mutate state are modelled as functions `DB -> args -> DB x outcome`;
a branch on which the Python code raises an uncaught exception (so the
request aborts with nothing committed) is the `crash` outcome and returns
the store unchanged, since `db.session.commit()` is never reached there and
the request-scoped session is rolled back on teardown.
-/

/-- Row of table `events` (src/app.py lines 42-56). -/
structure Event where
  event_id : Nat
  title : String
  start_time : Int
  end_time : Int
  description : String
deriving DecidableEq

/-- Row of table `resources` (src/app.py lines 58-70). -/
structure Resource where
  resource_id : Nat
  resource_name : String
  resource_type : String
deriving DecidableEq

/-- Row of table `event_resource_allocations` (src/app.py lines 72-81).
The denormalized `start_time` / `end_time` columns are nullable in the
schema, hence `Option Int`. -/
structure EventResourceAllocation where
  allocation_id : Nat
  event_id : Nat
  resource_id : Nat
  start_time : Option Int
  end_time : Option Int
deriving DecidableEq

/-- The committed database: the three tables plus the autoincrement counter
for each primary key (SQLite assigns ids 1, 2, ... in insertion order). -/
structure DB where
  events : List Event
  resources : List Resource
  allocations : List EventResourceAllocation
  nextEventId : Nat
  nextResourceId : Nat
  nextAllocationId : Nat
deriving DecidableEq

/-- The empty store that `db.create_all()` starts from. -/
def DB.init : DB := ⟨[], [], [], 1, 1, 1⟩

/-- The four-clause overlap disjunction of `check_conflicts`
(src/app.py lines 90-95), with `(es, ee)` the existing event's interval and
`(cs, ce)` the candidate interval passed to the query. -/
def overlaps4 (es ee cs ce : Int) : Prop :=
  (es ≤ cs ∧ ee > cs) ∨ (es < ce ∧ ee ≥ ce) ∨ (es ≥ cs ∧ ee ≤ ce) ∨ es = cs

instance overlaps4.instDecidable (es ee cs ce : Int) :
    Decidable (overlaps4 es ee cs ce) := by
  unfold overlaps4; exact inferInstance

/-- Modelled from the spec: the "canonical simplification
`existing.start < candidate.end AND existing.end > candidate.start`" that
§4.1 of the spec contrasts with the implemented four-clause predicate.
This definition follows the spec's words; it is not code of src/app.py. -/
def canonicalOverlapSpec (es ee cs ce : Int) : Prop :=
  es < ce ∧ ee > cs

instance canonicalOverlapSpec.instDecidable (es ee cs ce : Int) :
    Decidable (canonicalOverlapSpec es ee cs ce) := by
  unfold canonicalOverlapSpec; exact inferInstance

/-- `Event.query.get(id)` / the FK target of an allocation: the first stored
event with the given primary key.  `event_id` is the primary key of
`events`, so the inner join of `check_conflicts` matches at most one event
row per allocation; the join is therefore modelled by this lookup. -/
def lookupEvent (db : DB) (i : Nat) : Option Event :=
  db.events.find? (fun e => e.event_id == i)

/-- `Resource.query.get(id)`: the first stored resource with the given
primary key. -/
def lookupResource (db : DB) (i : Nat) : Option Resource :=
  db.resources.find? (fun r => r.resource_id == i)

/-- `check_conflicts` (src/app.py lines 86-97): the allocations on
`resource_id` belonging to an event other than `event_id` whose joined
`Event` row satisfies the four-clause disjunction against
`[start_time, end_time]`.  A pure read: it takes the store and returns a
list without producing a new store. -/
def check_conflicts (db : DB) (event_id resource_id : Nat)
    (start_time end_time : Int) : List EventResourceAllocation :=
  db.allocations.filter (fun a =>
    a.resource_id == resource_id &&
    a.event_id != event_id &&
    db.events.any (fun ev =>
      ev.event_id == a.event_id &&
      decide (overlaps4 ev.start_time ev.end_time start_time end_time)))

/-- Outcome of the `edit_event` POST route. -/
inductive EditResult where
  | notFound
  | invalidInterval
  | conflict (names : List String)
  | committed
  | crash
deriving DecidableEq

/-- Outcome of the `add_allocation` POST route. -/
inductive AllocResult where
  | duplicate
  | crash
  | conflictDetected
  | created
deriving DecidableEq

/-- `add_event` POST (src/app.py lines 147-171): reject `start >= end`,
otherwise insert a new event row.  The Bool reports whether the insert
committed. -/
def add_event (db : DB) (title : String) (s e : Int) (desc : String) :
    DB × Bool :=
  if s ≥ e then (db, false)
  else
    ({ db with
        events := db.events ++ [⟨db.nextEventId, title, s, e, desc⟩],
        nextEventId := db.nextEventId + 1 }, true)

/-- The allocations of `event_id` for which the `edit_event` loop
(src/app.py lines 187-197) finds conflicts against the proposed interval:
the event's allocations whose `check_conflicts` result is nonempty. -/
def edit_conflicting (db : DB) (event_id : Nat) (ns ne : Int) :
    List EventResourceAllocation :=
  (db.allocations.filter (fun a => a.event_id == event_id)).filter
    (fun a => !(check_conflicts db event_id a.resource_id ns ne).isEmpty)

/-- The per-row effect of an `edit_event` commit on the `events` table: the
row with the edited primary key takes the submitted title, description and
interval; every other row is untouched. -/
def updEvent (event_id : Nat) (title : String) (ns ne : Int) (desc : String)
    (e : Event) : Event :=
  if e.event_id == event_id then
    { e with title := title, description := desc,
             start_time := ns, end_time := ne }
  else e

/-- `edit_event` POST (src/app.py lines 173-211).  `get_or_404` on a missing
id; reject `start >= end`; for every allocation of the event run
`check_conflicts` against the new interval, collecting the conflicting
resources' names (looking up a missing resource there raises
`AttributeError`, the crash outcome); reject when any name was collected;
otherwise commit the new title, description and interval.  The title and
description assignments made before the checks only reach the store on the
commit path, because the session is rolled back on every other path. -/
def edit_event (db : DB) (event_id : Nat) (title : String) (ns ne : Int)
    (desc : String) : DB × EditResult :=
  if (lookupEvent db event_id).isNone then (db, .notFound)
  else if ns ≥ ne then (db, .invalidInterval)
  else if (edit_conflicting db event_id ns ne).isEmpty then
    ({ db with
        events := db.events.map (updEvent event_id title ns ne desc) },
     .committed)
  else
    match (edit_conflicting db event_id ns ne).mapM
        (fun a => (lookupResource db a.resource_id).map
          (fun r => r.resource_name)) with
    | none => (db, .crash)
    | some names => (db, .conflict names)

/-- `delete_event` (src/app.py lines 215-221): `get_or_404`, then delete the
event; the `all, delete-orphan` relationship cascades to its allocations. -/
def delete_event (db : DB) (event_id : Nat) : DB × Bool :=
  if (lookupEvent db event_id).isNone then (db, false)
  else
    ({ db with
        events := db.events.filter (fun e => e.event_id != event_id),
        allocations :=
          db.allocations.filter (fun a => a.event_id != event_id) }, true)

/-- `add_resource` POST (src/app.py lines 229-242): unconditional insert. -/
def add_resource (db : DB) (name ty : String) : DB :=
  { db with
      resources := db.resources ++ [⟨db.nextResourceId, name, ty⟩],
      nextResourceId := db.nextResourceId + 1 }

/-- `delete_resource` (src/app.py lines 258-264): `get_or_404`, then delete
the resource; the relationship cascades to its allocations. -/
def delete_resource (db : DB) (resource_id : Nat) : DB × Bool :=
  if (lookupResource db resource_id).isNone then (db, false)
  else
    ({ db with
        resources := db.resources.filter (fun r => r.resource_id != resource_id),
        allocations :=
          db.allocations.filter (fun a => a.resource_id != resource_id) }, true)

/-- `add_allocation` POST (src/app.py lines 272-310).  Order as in the
source: duplicate (event, resource) check first; then `Event.query.get`
— reading `event.start_time` off a missing event raises `AttributeError`
(crash outcome; note no NotFound handling and no existence check on the
resource at all); then `check_conflicts` with the event's own interval;
on success insert the allocation with the event's times copied into the
denormalized columns. -/
def add_allocation (db : DB) (event_id resource_id : Nat) :
    DB × AllocResult :=
  if db.allocations.any
      (fun a => a.event_id == event_id && a.resource_id == resource_id) then
    (db, .duplicate)
  else
    match lookupEvent db event_id with
    | none => (db, .crash)
    | some ev =>
      if (check_conflicts db event_id resource_id
            ev.start_time ev.end_time).isEmpty then
        ({ db with
            allocations := db.allocations ++
              [⟨db.nextAllocationId, event_id, resource_id,
                some ev.start_time, some ev.end_time⟩],
            nextAllocationId := db.nextAllocationId + 1 }, .created)
      else (db, .conflictDetected)

/-- `delete_allocation` (src/app.py lines 316-322): `get_or_404`, then
delete the row. -/
def delete_allocation (db : DB) (allocation_id : Nat) : DB × Bool :=
  if db.allocations.any (fun a => a.allocation_id == allocation_id) then
    ({ db with
        allocations :=
          db.allocations.filter (fun a => a.allocation_id != allocation_id) },
     true)
  else (db, false)

/-- One state-changing request against the store. -/
inductive Op where
  | addEvent (title : String) (s e : Int) (desc : String)
  | editEvent (id : Nat) (title : String) (ns ne : Int) (desc : String)
  | deleteEvent (id : Nat)
  | addResource (name ty : String)
  | deleteResource (id : Nat)
  | addAllocation (eid rid : Nat)
  | deleteAllocation (id : Nat)

/-- The committed store after one request (outcomes discarded). -/
def step (db : DB) : Op → DB
  | .addEvent t s e d => (add_event db t s e d).1
  | .editEvent i t ns ne d => (edit_event db i t ns ne d).1
  | .deleteEvent i => (delete_event db i).1
  | .addResource n ty => add_resource db n ty
  | .deleteResource i => (delete_resource db i).1
  | .addAllocation e r => (add_allocation db e r).1
  | .deleteAllocation i => (delete_allocation db i).1

/-- The store reached by a sequence of requests from the empty store. -/
def run (ops : List Op) : DB := ops.foldl step DB.init

/-- `Resource.query.count()` on the dashboard (src/app.py line 113). -/
def total_resources (db : DB) : Nat := db.resources.length

/-- `query(EventResourceAllocation.resource_id).distinct().count()`
(src/app.py lines 114-118): the number of distinct resource ids appearing
among the stored allocations. -/
def allocated_resources (db : DB) : Nat :=
  (db.allocations.map (fun a => a.resource_id)).dedup.length

/-- Round-to-nearest with ties to even, the rounding used when an IEEE-754
operation fixes the 53-bit significand of its result. -/
def roundHalfEvenZ (q : ℚ) : ℤ :=
  if q - ⌊q⌋ < 1 / 2 then ⌊q⌋
  else if (1 / 2 : ℚ) < q - ⌊q⌋ then ⌊q⌋ + 1
  else if ⌊q⌋ % 2 = 0 then ⌊q⌋ else ⌊q⌋ + 1

/-- The exact value of the IEEE-754 binary64 double nearest to a positive
rational: the significand `q / 2 ^ (⌊log2 q⌋ - 52)` lies in
`[2^52, 2^53)` and is rounded to nearest, ties to even.  This models every
CPython float operation the dashboard performs (`/` on ints and `*` are
correctly rounded).  Nonpositive inputs (only `q = 0` arises in the
dashboard, where the counts are nonnegative) are mapped to 0; subnormal
and overflowing magnitudes never arise from these count ratios. -/
def floatRound (q : ℚ) : ℚ :=
  if q ≤ 0 then 0
  else (roundHalfEvenZ (q / 2 ^ (Int.log 2 q - 52)) : ℚ) *
    2 ^ (Int.log 2 q - 52)

/-- `resource_load` on the dashboard (src/app.py line 120):
`int((allocated_resources / total_resources) * 100)` when resources exist,
else 0, in IEEE-754 binary64 arithmetic: the int/int true division is the
correctly rounded double of the exact quotient, the multiplication by the
exactly representable 100 is again correctly rounded, and `int()`
truncates toward zero (the floor, as the value is nonnegative). -/
def resource_load (db : DB) : Nat :=
  if total_resources db ≠ 0 then
    (⌊floatRound (floatRound ((allocated_resources db : ℚ) /
        (total_resources db : ℚ)) * 100)⌋).toNat
  else 0

/-- Modelled from the spec: `resourceUtilizationPercent = round(100 *
distinctAllocatedResourceCount / totalResourceCount)`, 0 when no resources
exist (§6 of the spec).  This definition follows the spec's words, for
comparison with `resource_load` from the source. -/
def resourceUtilizationPercentSpec (db : DB) : ℤ :=
  if total_resources db = 0 then 0
  else round ((100 * (allocated_resources db : ℚ)) / (total_resources db : ℚ))

/-- `round(x, 2)` applied to the report's hour total (src/app.py line 384),
on exact rationals.  (Python rounds float ties to even; no value in the
claims is a tie, so the difference is immaterial here.) -/
def round2 (q : ℚ) : ℚ := (round (q * 100) : ℚ) / 100

/-- The report's end-of-window timestamp (src/app.py lines 357-358): the
parsed `end_date` is a midnight timestamp, and
`replace(hour=23, minute=59, second=59)` moves it to 23:59:59 of the same
day, i.e. adds 86399 seconds. -/
def report_end_ts (endDateMidnight : Int) : Int := endDateMidnight + 86399

/-- The report's per-resource loop body (src/app.py lines 363-386) for one
resource id: walk this resource's allocations, look up each owning event
(`Event.query.get`; a missing event would raise `AttributeError`, hence the
`Option`), accumulate `(min(event.end, end_date) - max(event.start,
start_date))` in hours for every event intersecting the window, round the
total to two decimals, and collect as upcoming every event starting
strictly after `now`. -/
def report_for_resource (db : DB) (rid : Nat) (sd ed now : Int) :
    Option (ℚ × List Event) :=
  ((db.allocations.filter (fun a => a.resource_id == rid)).mapM
      (fun a => lookupEvent db a.event_id)).map
    (fun evs =>
      (round2 ((evs.map (fun ev =>
          if ev.start_time ≤ ed ∧ ev.end_time ≥ sd then
            ((min ev.end_time ed - max ev.start_time sd : Int) : ℚ) / 3600
          else 0)).sum),
       evs.filter (fun ev => now < ev.start_time)))

/-- One line of the `/conflicts` page: the allocation's own event, the
conflicting allocation's event (`Event.query.get`, possibly absent) and the
allocation's resource (`Resource.query.get`, possibly absent). -/
def ConflictEntry : Type := Event × Option Event × Option Resource

instance : DecidableEq ConflictEntry := by
  unfold ConflictEntry; exact inferInstance

/-- The `/conflicts` route (src/app.py lines 325-350): for every stored
allocation, look up its event (reading `event.start_time` off a missing
event raises `AttributeError`, hence the `Option` result), run
`check_conflicts` with the allocation's own ids and the event's interval,
and emit one entry per conflicting allocation found. -/
def conflicts_view (db : DB) : Option (List ConflictEntry) :=
  (db.allocations.mapM (fun a =>
      (lookupEvent db a.event_id).map (fun ev =>
        (check_conflicts db a.event_id a.resource_id
            ev.start_time ev.end_time).map
          (fun c => ((ev, lookupEvent db c.event_id,
              lookupResource db a.resource_id) : ConflictEntry))))).map
    (fun ls => ls.flatten)

/-- The entries the `/conflicts` loop emits for one allocation whose owning
event exists (the loop body of src/app.py lines 330-348); empty when the
owning event is missing, a case `conflicts_view` reports as a crash. -/
def conflictEntriesFor (db : DB) (a : EventResourceAllocation) :
    List ConflictEntry :=
  (lookupEvent db a.event_id).elim []
    (fun ev =>
      (check_conflicts db a.event_id a.resource_id
          ev.start_time ev.end_time).map
        (fun c => ((ev, lookupEvent db c.event_id,
            lookupResource db a.resource_id) : ConflictEntry)))

/-- Two allocation rows that agree outside the denormalized cached
interval: same primary key, same event FK, same resource FK. -/
def sameCore (a b : EventResourceAllocation) : Prop :=
  a.allocation_id = b.allocation_id ∧ a.event_id = b.event_id ∧
    a.resource_id = b.resource_id

/-- The event-validity invariant: every stored event has `start < end`
(enforced by `add_event` and `edit_event`). -/
def EventsValid (db : DB) : Prop :=
  ∀ e ∈ db.events, e.start_time < e.end_time

/-- Primary-key uniqueness of the `events` table. -/
def EventIdsUnique (db : DB) : Prop :=
  db.events.Pairwise (fun x y => x.event_id ≠ y.event_id)

/-- Every stored event id is below the autoincrement counter. -/
def EventIdsBounded (db : DB) : Prop :=
  ∀ e ∈ db.events, e.event_id < db.nextEventId

/-- Referential integrity of the event FK: every allocation's owning event
row exists (maintained by the crash in `add_allocation` and the cascades of
`delete_event`). -/
def AllocEventsExist (db : DB) : Prop :=
  ∀ a ∈ db.allocations, ∃ e ∈ db.events, e.event_id = a.event_id

/-- The no-double-booking invariant: any two stored allocations on the same
resource that belong to different events have non-overlapping owning-event
intervals under the four-clause predicate. -/
def NoOverlap (db : DB) : Prop :=
  ∀ a1 ∈ db.allocations, ∀ a2 ∈ db.allocations,
    a1.event_id ≠ a2.event_id → a1.resource_id = a2.resource_id →
    ∀ e1 ∈ db.events, e1.event_id = a1.event_id →
    ∀ e2 ∈ db.events, e2.event_id = a2.event_id →
    ¬ overlaps4 e1.start_time e1.end_time e2.start_time e2.end_time

/-- The inductive invariant of the lifecycle manager. -/
def StoreInv (db : DB) : Prop :=
  EventsValid db ∧ EventIdsUnique db ∧ EventIdsBounded db ∧
    AllocEventsExist db ∧ NoOverlap db

/-- Membership characterization of the `check_conflicts` result. -/
theorem check_conflicts_mem (db : DB) (eid rid : Nat) (s t : Int)
    (a : EventResourceAllocation) :
    a ∈ check_conflicts db eid rid s t ↔
      a ∈ db.allocations ∧ a.resource_id = rid ∧ a.event_id ≠ eid ∧
        ∃ ev ∈ db.events, ev.event_id = a.event_id ∧
          overlaps4 ev.start_time ev.end_time s t := by
  simp [check_conflicts, List.mem_filter, List.any_eq_true, and_assoc]

/-- The filter of `check_conflicts` returns nothing iff no stored allocation
satisfies all of its conditions. -/
theorem check_conflicts_eq_nil_iff (db : DB) (eid rid : Nat) (s t : Int) :
    check_conflicts db eid rid s t = [] ↔
      ∀ a ∈ db.allocations, a.resource_id = rid → a.event_id ≠ eid →
        ∀ ev ∈ db.events, ev.event_id = a.event_id →
          ¬ overlaps4 ev.start_time ev.end_time s t := by
  constructor
  · intro h a ha hr hne ev hev hid hov
    have : a ∈ check_conflicts db eid rid s t :=
      (check_conflicts_mem db eid rid s t a).2 ⟨ha, hr, hne, ev, hev, hid, hov⟩
    simp [h] at this
  · intro h
    rcases hne : check_conflicts db eid rid s t with _ | ⟨a, l⟩
    · rfl
    · have ha : a ∈ check_conflicts db eid rid s t := by simp [hne]
      rcases (check_conflicts_mem db eid rid s t a).1 ha with
        ⟨hmem, hr, hne', ev, hev, hid, hov⟩
      exact absurd hov (h a hmem hr hne' ev hev hid)

/-- For valid intervals the four-clause disjunction is symmetric in the two
intervals. -/
theorem overlaps4_symm (es ee cs ce : Int) (h₁ : es < ee) (h₂ : cs < ce) :
    overlaps4 es ee cs ce ↔ overlaps4 cs ce es ee := by
  unfold overlaps4; omega

/-- C1: `check_conflicts(event_id, resource_id, start_time, end_time)`
returns exactly the stored allocations on `resource_id` that belong to a
different event and whose owning Event row satisfies the four-clause
disjunction against the candidate interval.  The query is a pure read: it
is a function of the store that returns only the selected rows, so no
stored state is modified. -/
theorem c1_check_conflicts_exact (db : DB) (eid rid : Nat) (s t : Int)
    (a : EventResourceAllocation) :
    a ∈ check_conflicts db eid rid s t ↔
      a ∈ db.allocations ∧ a.resource_id = rid ∧ a.event_id ≠ eid ∧
        ∃ ev ∈ db.events, ev.event_id = a.event_id ∧
          ((ev.start_time ≤ s ∧ ev.end_time > s) ∨
           (ev.start_time < t ∧ ev.end_time ≥ t) ∨
           (ev.start_time ≥ s ∧ ev.end_time ≤ t) ∨
           ev.start_time = s) :=
  check_conflicts_mem db eid rid s t a

/-- C2 counterexample: there is no pair of valid intervals on which the
four-clause predicate and the canonical simplification disagree — contrary
to the claim, the two predicates coincide on all intervals with
`start < end`. -/
theorem c2_no_disagreeing_valid_pair :
    ¬ ∃ es ee cs ce : Int, es < ee ∧ cs < ce ∧
      ¬ (overlaps4 es ee cs ce ↔ canonicalOverlapSpec es ee cs ce) := by
  rintro ⟨es, ee, cs, ce, h₁, h₂, hne⟩
  apply hne
  unfold overlaps4 canonicalOverlapSpec
  omega

/-- C2 amended: on every pair of intervals that each satisfy
`start < end`, the four-clause predicate of `check_conflicts` and the
canonical simplification `existing.start < candidate.end AND
existing.end > candidate.start` agree; the simplification changes no
behavior on valid intervals. -/
theorem c2_overlaps4_eq_canonical_on_valid (es ee cs ce : Int)
    (h₁ : es < ee) (h₂ : cs < ce) :
    overlaps4 es ee cs ce ↔ canonicalOverlapSpec es ee cs ce := by
  unfold overlaps4 canonicalOverlapSpec
  omega

/-- C2 witness: the amended equivalence at a concrete valid pair. -/
theorem c2_overlaps4_eq_canonical_witness :
    overlaps4 0 10 5 15 ↔ canonicalOverlapSpec 0 10 5 15 :=
  c2_overlaps4_eq_canonical_on_valid 0 10 5 15 (by decide) (by decide)

/-- `List.mapM` in the `Option` monad succeeds with the pointwise map when
every element succeeds. -/
theorem mapM_eq_some_map {α β : Type} (f : α → Option β) (g : α → β)
    (l : List α) (h : ∀ a ∈ l, f a = some (g a)) :
    l.mapM f = some (l.map g) := by
  induction l with
  | nil => rfl
  | cons a l ih =>
    rw [List.mapM_cons, h a (by simp), ih (fun x hx => h x (by simp [hx]))]
    rfl

/-- C4 (code bug): `edit_event` commits a new interval without refreshing
the denormalized start/end columns of the event's allocations.  Concretely:
an event `[0, 10)` with one allocation (cached `[0, 10)`) is edited to
`[0, 20)`; the edit commits and the event's stored interval becomes
`[0, 20)`, but the child allocation's cached interval is still
`(some 0, some 10)`, not the event's new times. -/
theorem c4_edit_event_stale_allocation_cache :
    (edit_event (run [.addEvent "A" 0 10 "", .addResource "R" "room",
        .addAllocation 1 1]) 1 "A" 0 20 "").2 = EditResult.committed ∧
    lookupEvent (edit_event (run [.addEvent "A" 0 10 "",
        .addResource "R" "room", .addAllocation 1 1]) 1 "A" 0 20 "").1 1 =
      some ⟨1, "A", 0, 20, ""⟩ ∧
    (edit_event (run [.addEvent "A" 0 10 "", .addResource "R" "room",
        .addAllocation 1 1]) 1 "A" 0 20 "").1.allocations =
      [⟨1, 1, 1, some 0, some 10⟩] ∧
    (some (10 : Int) ≠ some (20 : Int)) := by
  decide

/-- C5: a rejected `edit_event` call — whether rejected for
`new_start >= new_end` or for a detected conflict — leaves the committed
store (the event row, title and description included, and every
allocation's cached interval) entirely unchanged: only the commit branch
produces a new store. -/
theorem c5_edit_event_rejected_unchanged (db : DB) (eid : Nat)
    (title : String) (ns ne : Int) (desc : String)
    (h : (edit_event db eid title ns ne desc).2 = EditResult.invalidInterval ∨
         ∃ names, (edit_event db eid title ns ne desc).2 =
           EditResult.conflict names) :
    (edit_event db eid title ns ne desc).1 = db := by
  revert h
  unfold edit_event
  by_cases hnf : (lookupEvent db eid).isNone
  · simp [hnf]
  · simp only [hnf, Bool.false_eq_true, if_neg, if_false]
    by_cases hge : ns ≥ ne
    · simp [hge]
    · simp only [if_neg hge]
      by_cases hemp : (edit_conflicting db eid ns ne).isEmpty
      · simp only [hemp, if_true]
        rintro (h | ⟨names, h⟩) <;> simp at h
      · simp only [hemp, Bool.false_eq_true, if_neg, if_false]
        intro _
        split <;> rfl

/-- C5 witness: a concrete rejected edit (`new_start >= new_end`) leaves a
concrete store unchanged. -/
theorem c5_edit_event_rejected_unchanged_witness :
    (edit_event (run [.addEvent "A" 0 10 ""]) 1 "B" 9 3 "").1 =
      run [.addEvent "A" 0 10 ""] :=
  c5_edit_event_rejected_unchanged (run [.addEvent "A" 0 10 ""]) 1 "B" 9 3 ""
    (Or.inl (by decide))

/-- C6 (code bug): `add_allocation` performs no existence checks.  With no
stored event, `add_allocation(1, 1)` reads `event.start_time` off `None`
and crashes (an unhandled `AttributeError`, not a typed NotFound); with an
event but no resource 7, `add_allocation(1, 7)` succeeds and stores an
allocation referencing the nonexistent resource instead of failing. -/
theorem c6_add_allocation_no_notfound :
    add_allocation DB.init 1 1 = (DB.init, AllocResult.crash) ∧
    (add_allocation (run [.addEvent "A" 0 10 ""]) 1 7).2 =
      AllocResult.created ∧
    (add_allocation (run [.addEvent "A" 0 10 ""]) 1 7).1.allocations =
      [⟨1, 1, 7, some 0, some 10⟩] ∧
    lookupResource (run [.addEvent "A" 0 10 ""]) 7 = none := by
  decide

/-- The binary64 rounding of a positive rational, pinned by naming its
binade (`2^l <= q < 2^(l+1)`), the scale `p = 2^(l-52)`, and the rounded
significand `m`. -/
theorem floatRound_eq (q p : ℚ) (l m : ℤ)
    (h1 : ((2 : ℕ) : ℚ) ^ l ≤ q) (h2 : q < ((2 : ℕ) : ℚ) ^ (l + 1))
    (hp : (2 : ℚ) ^ (l - 52) = p) (hm : roundHalfEvenZ (q / p) = m) :
    floatRound q = (m : ℚ) * p := by
  have hq : 0 < q := lt_of_lt_of_le (zpow_pos (by norm_num) l) h1
  have hlog : Int.log 2 q = l := by
    have hle : l ≤ Int.log 2 q :=
      (Int.zpow_le_iff_le_log (by norm_num) hq).1 h1
    have hlt : Int.log 2 q < l + 1 :=
      (Int.lt_zpow_iff_log_lt (by norm_num) hq).1 h2
    omega
  unfold floatRound
  rw [if_neg (not_le.2 hq), hlog, hp, hm]

/-- `roundHalfEvenZ` at a point whose fractional part is below one half. -/
theorem roundHalfEvenZ_eq_down (q : ℚ) (f : ℤ) (hf : ⌊q⌋ = f)
    (h : q - (f : ℚ) < 1 / 2) : roundHalfEvenZ q = f := by
  unfold roundHalfEvenZ
  rw [hf, if_pos h]

/-- `floatRound` never produces a negative value. -/
theorem floatRound_nonneg (q : ℚ) : 0 ≤ floatRound q := by
  unfold floatRound
  split
  · exact le_refl 0
  · rename_i hq
    apply mul_nonneg
    · have h0 : (0 : ℚ) < q / 2 ^ (Int.log 2 q - 52) :=
        div_pos (not_le.1 hq) (zpow_pos (by norm_num) _)
      have hfl : 0 ≤ ⌊q / 2 ^ (Int.log 2 q - 52)⌋ :=
        Int.floor_nonneg.2 (le_of_lt h0)
      have : 0 ≤ roundHalfEvenZ (q / 2 ^ (Int.log 2 q - 52)) := by
        unfold roundHalfEvenZ
        split_ifs <;> omega
      exact_mod_cast this
    · exact zpow_nonneg (by norm_num) _

/-- C7 counterexample: with 3 resources of which 2 distinct ones are
allocated, the dashboard's double-precision computation
`int((2 / 3) * 100)` stores 66 (the double for `2/3` is
`6004799503160661 * 2 ^ -53`, whose product with 100 rounds to
`4691249611844266 * 2 ^ -46 < 67`), while the claimed
`round(100 * 2 / 3)` is 67. -/
theorem c7_resource_load_not_round :
    resource_load ⟨[⟨1, "A", 0, 10, ""⟩],
        [⟨1, "R1", "t"⟩, ⟨2, "R2", "t"⟩, ⟨3, "R3", "t"⟩],
        [⟨1, 1, 1, some 0, some 10⟩, ⟨2, 1, 2, some 0, some 10⟩],
        2, 4, 3⟩ = 66 ∧
    resourceUtilizationPercentSpec ⟨[⟨1, "A", 0, 10, ""⟩],
        [⟨1, "R1", "t"⟩, ⟨2, "R2", "t"⟩, ⟨3, "R3", "t"⟩],
        [⟨1, 1, 1, some 0, some 10⟩, ⟨2, 1, 2, some 0, some 10⟩],
        2, 4, 3⟩ = 67 ∧
    ((66 : ℤ) ≠ 67) := by
  refine ⟨?_, ?_, by decide⟩
  · have e1 : floatRound ((2 : ℚ) / 3)
        = (6004799503160661 : ℚ) * (1 / 9007199254740992) :=
      floatRound_eq ((2 : ℚ) / 3) (1 / 9007199254740992) (-1)
        6004799503160661
        (by norm_num [zpow_neg]) (by norm_num)
        (by norm_num [zpow_neg])
        (roundHalfEvenZ_eq_down _ 6004799503160661
          (by rw [Int.floor_eq_iff]; constructor <;> norm_num)
          (by norm_num))
    have e2 : floatRound
          ((6004799503160661 : ℚ) * (1 / 9007199254740992) * 100)
        = (4691249611844266 : ℚ) * (1 / 70368744177664) :=
      floatRound_eq _ (1 / 70368744177664) 6 4691249611844266
        (by norm_num) (by norm_num)
        (by norm_num [zpow_neg])
        (roundHalfEvenZ_eq_down _ 4691249611844266
          (by rw [Int.floor_eq_iff]; constructor <;> norm_num)
          (by norm_num))
    unfold resource_load
    rw [if_pos (by decide)]
    rw [show allocated_resources ⟨[⟨1, "A", 0, 10, ""⟩],
        [⟨1, "R1", "t"⟩, ⟨2, "R2", "t"⟩, ⟨3, "R3", "t"⟩],
        [⟨1, 1, 1, some 0, some 10⟩, ⟨2, 1, 2, some 0, some 10⟩],
        2, 4, 3⟩ = 2 from by decide]
    rw [show total_resources ⟨[⟨1, "A", 0, 10, ""⟩],
        [⟨1, "R1", "t"⟩, ⟨2, "R2", "t"⟩, ⟨3, "R3", "t"⟩],
        [⟨1, 1, 1, some 0, some 10⟩, ⟨2, 1, 2, some 0, some 10⟩],
        2, 4, 3⟩ = 3 from by decide]
    push_cast
    rw [e1, e2]
    rw [show (⌊(4691249611844266 : ℚ) * (1 / 70368744177664)⌋ : ℤ) = 66
      from by rw [Int.floor_eq_iff]; constructor <;> norm_num]
    rfl
  · unfold resourceUtilizationPercentSpec
    norm_num [total_resources, allocated_resources, round_eq]

/-- C7 amended: the dashboard's stored utilization percentage equals the
truncation toward zero (here the floor, the value being nonnegative) of
the IEEE-754 double-precision evaluation of
`(allocated_resources / total_resources) * 100`, and equals 0 when no
resources exist.  This is the float computation, not the exact-rational
floor: with 29 of 100 resources allocated the double evaluation is just
below 29 and the page stores 28. -/
theorem c7_resource_load_float_trunc (db : DB) :
    (total_resources db = 0 → resource_load db = 0) ∧
    (total_resources db ≠ 0 →
      (resource_load db : ℤ) =
        ⌊floatRound (floatRound ((allocated_resources db : ℚ) /
            (total_resources db : ℚ)) * 100)⌋) := by
  constructor
  · intro h
    simp [resource_load, h]
  · intro h
    unfold resource_load
    rw [if_pos h]
    exact Int.toNat_of_nonneg (Int.floor_nonneg.2 (floatRound_nonneg _))

/-- C7 witness: at a store with 100 resources of which 29 distinct ones
are allocated, the amended theorem applies, and the stored figure is 28 —
the truncated double value — although the exact floor of the percentage
is 29. -/
theorem c7_resource_load_float_trunc_witness :
    total_resources ⟨[⟨1, "E", 0, 10, ""⟩],
        (List.range 100).map (fun i => ⟨i + 1, "R", "t"⟩),
        (List.range 29).map (fun i => ⟨i + 1, 1, i + 1, none, none⟩),
        2, 101, 30⟩ ≠ 0 ∧
    (resource_load ⟨[⟨1, "E", 0, 10, ""⟩],
        (List.range 100).map (fun i => ⟨i + 1, "R", "t"⟩),
        (List.range 29).map (fun i => ⟨i + 1, 1, i + 1, none, none⟩),
        2, 101, 30⟩ : ℤ) =
      ⌊floatRound (floatRound
          ((allocated_resources ⟨[⟨1, "E", 0, 10, ""⟩],
              (List.range 100).map (fun i => ⟨i + 1, "R", "t"⟩),
              (List.range 29).map (fun i => ⟨i + 1, 1, i + 1, none, none⟩),
              2, 101, 30⟩ : ℚ) /
            (total_resources ⟨[⟨1, "E", 0, 10, ""⟩],
              (List.range 100).map (fun i => ⟨i + 1, "R", "t"⟩),
              (List.range 29).map (fun i => ⟨i + 1, 1, i + 1, none, none⟩),
              2, 101, 30⟩ : ℚ)) * 100)⌋ ∧
    resource_load ⟨[⟨1, "E", 0, 10, ""⟩],
        (List.range 100).map (fun i => ⟨i + 1, "R", "t"⟩),
        (List.range 29).map (fun i => ⟨i + 1, 1, i + 1, none, none⟩),
        2, 101, 30⟩ = 28 ∧
    100 * allocated_resources ⟨[⟨1, "E", 0, 10, ""⟩],
        (List.range 100).map (fun i => ⟨i + 1, "R", "t"⟩),
        (List.range 29).map (fun i => ⟨i + 1, 1, i + 1, none, none⟩),
        2, 101, 30⟩ /
      total_resources ⟨[⟨1, "E", 0, 10, ""⟩],
        (List.range 100).map (fun i => ⟨i + 1, "R", "t"⟩),
        (List.range 29).map (fun i => ⟨i + 1, 1, i + 1, none, none⟩),
        2, 101, 30⟩ = 29 := by
  refine ⟨by decide,
    (c7_resource_load_float_trunc _).2 (by decide), ?_, by decide⟩
  have e1 : floatRound ((29 : ℚ) / 100)
      = (5224175567749775 : ℚ) * (1 / 18014398509481984) :=
    floatRound_eq ((29 : ℚ) / 100) (1 / 18014398509481984) (-2)
      5224175567749775
      (by norm_num [zpow_neg]) (by norm_num [zpow_neg])
      (by norm_num [zpow_neg])
      (roundHalfEvenZ_eq_down _ 5224175567749775
        (by rw [Int.floor_eq_iff]; constructor <;> norm_num)
        (by norm_num))
  have e2 : floatRound
        ((5224175567749775 : ℚ) * (1 / 18014398509481984) * 100)
      = (8162774324609023 : ℚ) * (1 / 281474976710656) :=
    floatRound_eq _ (1 / 281474976710656) 4 8162774324609023
      (by norm_num) (by norm_num)
      (by norm_num [zpow_neg])
      (roundHalfEvenZ_eq_down _ 8162774324609023
        (by rw [Int.floor_eq_iff]; constructor <;> norm_num)
        (by norm_num))
  unfold resource_load
  rw [if_pos (by decide)]
  rw [show allocated_resources ⟨[⟨1, "E", 0, 10, ""⟩],
      (List.range 100).map (fun i => ⟨i + 1, "R", "t"⟩),
      (List.range 29).map (fun i => ⟨i + 1, 1, i + 1, none, none⟩),
      2, 101, 30⟩ = 29 from by decide]
  rw [show total_resources ⟨[⟨1, "E", 0, 10, ""⟩],
      (List.range 100).map (fun i => ⟨i + 1, "R", "t"⟩),
      (List.range 29).map (fun i => ⟨i + 1, 1, i + 1, none, none⟩),
      2, 101, 30⟩ = 100 from by decide]
  push_cast
  rw [e1, e2]
  rw [show (⌊(8162774324609023 : ℚ) * (1 / 281474976710656)⌋ : ℤ) = 28
    from by rw [Int.floor_eq_iff]; constructor <;> norm_num]
  rfl


/-- Filtering respects a relation under which the two filter predicates
agree. -/
theorem forall2_filter {α β : Type} (R : α → β → Prop) (p : α → Bool)
    (q : β → Bool) (hpq : ∀ a b, R a b → p a = q b) {l1 : List α}
    {l2 : List β} (h : List.Forall₂ R l1 l2) :
    List.Forall₂ R (l1.filter p) (l2.filter q) := by
  induction h with
  | nil => exact .nil
  | @cons a b l1 l2 hab _ ih =>
    simp only [List.filter_cons, ← hpq a b hab]
    cases hp : p a
    · simpa [hp] using ih
    · simpa [hp] using List.Forall₂.cons hab ih

/-- C9: `check_conflicts` reads only the event rows and the allocations'
`event_id` / `resource_id` columns.  Two stores with the same events whose
allocation tables agree row by row outside the denormalized cached
`start_time`/`end_time` columns produce, for every query, results that
agree row by row in the same sense (the selected rows are the same rows;
they can differ only in the cached columns the query never reads). -/
theorem c9_check_conflicts_cache_independent (db1 db2 : DB)
    (he : db1.events = db2.events)
    (ha : List.Forall₂ sameCore db1.allocations db2.allocations)
    (eid rid : Nat) (s t : Int) :
    List.Forall₂ sameCore (check_conflicts db1 eid rid s t)
      (check_conflicts db2 eid rid s t) := by
  unfold check_conflicts
  exact forall2_filter sameCore _ _
    (fun a b hab => by rw [hab.2.1, hab.2.2, he]) ha

/-- C9 witness: two concrete stores differing only in an allocation's
cached interval give the same selection. -/
theorem c9_check_conflicts_cache_independent_witness :
    List.Forall₂ sameCore
      (check_conflicts ⟨[⟨1, "A", 0, 10, ""⟩, ⟨2, "B", 5, 15, ""⟩], [],
        [⟨1, 1, 1, some 0, some 10⟩], 3, 1, 2⟩ 2 1 5 15)
      (check_conflicts ⟨[⟨1, "A", 0, 10, ""⟩, ⟨2, "B", 5, 15, ""⟩], [],
        [⟨1, 1, 1, none, none⟩], 3, 1, 2⟩ 2 1 5 15) :=
  c9_check_conflicts_cache_independent
    ⟨[⟨1, "A", 0, 10, ""⟩, ⟨2, "B", 5, 15, ""⟩], [],
      [⟨1, 1, 1, some 0, some 10⟩], 3, 1, 2⟩
    ⟨[⟨1, "A", 0, 10, ""⟩, ⟨2, "B", 5, 15, ""⟩], [],
      [⟨1, 1, 1, none, none⟩], 3, 1, 2⟩ rfl
    (List.Forall₂.cons ⟨rfl, rfl, rfl⟩ List.Forall₂.nil) 2 1 5 15

/-- C8: the utilization report for a resource.  When every allocation of
the resource has an owning event row (`f` names it), the report succeeds
and its hour total is `round(. , 2)` of the sum, over the resource's
allocations, of `(min(event.end, end_date) - max(event.start, start_date))
/ 3600` for the events intersecting the window — the window end being the
caller's end date pushed to 23:59:59 — and 0 for events outside it; the
upcoming list holds the owning events starting strictly after `now`. -/
theorem c8_report_hours (db : DB) (rid : Nat) (sd edm now : Int)
    (f : EventResourceAllocation → Event)
    (hf : ∀ a ∈ db.allocations.filter (fun a => a.resource_id == rid),
      lookupEvent db a.event_id = some (f a)) :
    report_for_resource db rid sd (report_end_ts edm) now =
      some (round2
        (((db.allocations.filter (fun a => a.resource_id == rid)).map
          (fun a =>
            if (f a).start_time ≤ report_end_ts edm ∧ (f a).end_time ≥ sd then
              ((min (f a).end_time (report_end_ts edm) -
                max (f a).start_time sd : Int) : ℚ) / 3600
            else 0)).sum),
       ((db.allocations.filter (fun a => a.resource_id == rid)).map f).filter
         (fun ev => now < ev.start_time)) := by
  unfold report_for_resource
  rw [mapM_eq_some_map _ f _ hf, Option.map_some', List.map_map]
  rfl

/-- C8 witness: the spec's scenario.  Window `[2024-01-01, 2024-01-03]`
(midnights 0 and 172800 seconds into 2024, the end pushed to 23:59:59 =
259199), one allocation whose owning event runs 2024-01-02 09:00-17:00
(118800 to 147600): the resource's reported total is exactly 8.0 hours. -/
theorem c8_report_hours_witness :
    report_for_resource ⟨[⟨1, "E", 118800, 147600, ""⟩], [⟨1, "R", "room"⟩],
        [⟨1, 1, 1, some 118800, some 147600⟩], 2, 2, 2⟩ 1 0
      (report_end_ts 172800) 0 =
      some (8, [⟨1, "E", 118800, 147600, ""⟩]) := by
  rw [c8_report_hours ⟨[⟨1, "E", 118800, 147600, ""⟩], [⟨1, "R", "room"⟩],
      [⟨1, 1, 1, some 118800, some 147600⟩], 2, 2, 2⟩ 1 0 172800 0
      (fun _ => ⟨1, "E", 118800, 147600, ""⟩) (by decide)]
  norm_num [report_end_ts, round2, round_eq, List.filter]

/-- In a list whose entries have pairwise distinct keys, equal keys force
equal entries. -/
theorem pairwise_key_inj {α κ : Type} (key : α → κ) {l : List α}
    (hu : l.Pairwise (fun x y => key x ≠ key y)) {x y : α}
    (hx : x ∈ l) (hy : y ∈ l) (hk : key x = key y) : x = y := by
  induction l with
  | nil => cases hx
  | cons a l ih =>
    rcases List.pairwise_cons.1 hu with ⟨ha, hl⟩
    rcases List.mem_cons.1 hx with hxa | hx' <;>
      rcases List.mem_cons.1 hy with hya | hy'
    · rw [hxa, hya]
    · subst hxa; exact absurd hk (ha y hy')
    · subst hya; exact absurd hk.symm (ha x hx')
    · exact ih hl hx' hy'

/-- In a list with pairwise distinct keys, searching for a member's key
finds exactly that member. -/
theorem find?_key_eq_some {α : Type} (key : α → Nat) {l : List α}
    (hu : l.Pairwise (fun x y => key x ≠ key y)) {x : α} (hx : x ∈ l) :
    l.find? (fun y => key y == key x) = some x := by
  induction l with
  | nil => cases hx
  | cons a l ih =>
    rcases List.pairwise_cons.1 hu with ⟨ha, hl⟩
    rcases List.mem_cons.1 hx with rfl | hx
    · exact List.find?_cons_of_pos _ (by simp)
    · rw [List.find?_cons_of_neg]
      · exact ih hl hx
      · simpa using ha x hx

/-- With unique event ids, looking up a stored event's id returns it. -/
theorem lookupEvent_of_mem {db : DB} (hu : EventIdsUnique db) {e : Event}
    (he : e ∈ db.events) : lookupEvent db e.event_id = some e := by
  have hu' : db.events.Pairwise (fun x y => x.event_id ≠ y.event_id) := hu
  exact find?_key_eq_some (fun x => x.event_id) hu' he

/-- A successful event lookup returns a stored row carrying the requested
id. -/
theorem lookupEvent_some {db : DB} {i : Nat} {e : Event}
    (h : lookupEvent db i = some e) : e ∈ db.events ∧ e.event_id = i := by
  unfold lookupEvent at h
  refine ⟨List.mem_of_find?_eq_some h, ?_⟩
  have := List.find?_some h
  simpa using this

/-- A successful resource lookup returns a stored row carrying the
requested id. -/
theorem lookupResource_some {db : DB} {i : Nat} {r : Resource}
    (h : lookupResource db i = some r) :
    r ∈ db.resources ∧ r.resource_id = i := by
  unfold lookupResource at h
  refine ⟨List.mem_of_find?_eq_some h, ?_⟩
  have := List.find?_some h
  simpa using this

/-- When the `edit_event` conflict scan comes back empty, every allocation
of the edited event has an empty `check_conflicts` result for the proposed
interval. -/
theorem edit_conflicting_isEmpty {db : DB} {eid : Nat} {ns ne : Int}
    (h : (edit_conflicting db eid ns ne).isEmpty = true) :
    ∀ a ∈ db.allocations, a.event_id = eid →
      check_conflicts db eid a.resource_id ns ne = [] := by
  intro a ha hid
  rw [List.isEmpty_iff] at h
  by_contra hcc
  have h1 : a ∈ db.allocations.filter (fun x => x.event_id == eid) :=
    List.mem_filter.2 ⟨ha, by simp [hid]⟩
  have h2 : a ∈ edit_conflicting db eid ns ne := by
    refine List.mem_filter.2 ⟨h1, ?_⟩
    simp only [Bool.not_eq_true', ← Bool.not_eq_true, List.isEmpty_iff]
    exact hcc
  simp [h] at h2

/-- `updEvent` never changes the primary key. -/
theorem updEvent_id (eid : Nat) (title : String) (ns ne : Int)
    (desc : String) (e : Event) :
    (updEvent eid title ns ne desc e).event_id = e.event_id := by
  unfold updEvent; split <;> rfl

/-- `updEvent` leaves rows with a different primary key untouched. -/
theorem updEvent_eq_self {eid : Nat} {title : String} {ns ne : Int}
    {desc : String} {e : Event} (h : e.event_id ≠ eid) :
    updEvent eid title ns ne desc e = e := by
  unfold updEvent
  rw [if_neg (by simpa using h)]

/-- `updEvent` gives the edited row the submitted interval. -/
theorem updEvent_times {eid : Nat} {title : String} {ns ne : Int}
    {desc : String} {e : Event} (h : e.event_id = eid) :
    (updEvent eid title ns ne desc e).start_time = ns ∧
      (updEvent eid title ns ne desc e).end_time = ne := by
  unfold updEvent
  rw [if_pos (by simpa using h)]
  exact ⟨rfl, rfl⟩

/-- The empty store satisfies the lifecycle invariant. -/
theorem storeInv_init : StoreInv DB.init := by
  refine ⟨?_, ?_, ?_, ?_, ?_⟩ <;>
    simp [DB.init, EventsValid, EventIdsUnique, EventIdsBounded,
      AllocEventsExist, NoOverlap]

/-- `add_event` preserves the lifecycle invariant: the inserted row is
valid, carries a fresh primary key, and no allocation can reference it
yet. -/
theorem storeInv_add_event (db : DB) (h : StoreInv db) (title : String)
    (s e : Int) (desc : String) : StoreInv (add_event db title s e desc).1 := by
  obtain ⟨hval, huniq, hbnd, hex, hno⟩ := h
  unfold add_event
  by_cases hge : s ≥ e
  · simp only [if_pos hge]
    exact ⟨hval, huniq, hbnd, hex, hno⟩
  · simp only [if_neg hge]
    refine ⟨?_, ?_, ?_, ?_, ?_⟩
    · intro ev hev
      rcases List.mem_append.1 hev with h1 | h1
      · exact hval ev h1
      · simp only [List.mem_singleton] at h1
        subst h1
        exact lt_of_not_ge hge
    · refine List.pairwise_append.2 ⟨huniq, by simp, ?_⟩
      intro x hx y hy
      simp only [List.mem_singleton] at hy
      subst hy
      have := hbnd x hx
      simp only [ne_eq]
      omega
    · intro ev hev
      rcases List.mem_append.1 hev with h1 | h1
      · exact Nat.lt_succ_of_lt (hbnd ev h1)
      · simp only [List.mem_singleton] at h1
        subst h1
        exact Nat.lt_succ_self _
    · intro a ha
      obtain ⟨e', he', hid⟩ := hex a ha
      exact ⟨e', List.mem_append_left _ he', hid⟩
    · intro a1 ha1 a2 ha2 hne12 hrr e1 he1 hid1 e2 he2 hid2
      rcases List.mem_append.1 he1 with h1 | h1
      · rcases List.mem_append.1 he2 with h2 | h2
        · exact hno a1 ha1 a2 ha2 hne12 hrr e1 h1 hid1 e2 h2 hid2
        · simp only [List.mem_singleton] at h2
          subst h2
          obtain ⟨e', he', hid'⟩ := hex a2 ha2
          have hb := hbnd e' he'
          simp only at hid2
          exfalso
          omega
      · simp only [List.mem_singleton] at h1
        subst h1
        obtain ⟨e', he', hid'⟩ := hex a1 ha1
        have hb := hbnd e' he'
        simp only at hid1
        exfalso
        omega

/-- `edit_event` preserves the lifecycle invariant: rejected and crashed
calls keep the store, and a commit is guarded by an empty conflict scan for
every allocation of the edited event, which — with the symmetry of the
overlap predicate on valid intervals — keeps every pair of allocations on a
shared resource non-overlapping. -/
theorem storeInv_edit_event (db : DB) (h : StoreInv db) (eid : Nat)
    (title : String) (ns ne : Int) (desc : String) :
    StoreInv (edit_event db eid title ns ne desc).1 := by
  obtain ⟨hval, huniq, hbnd, hex, hno⟩ := h
  unfold edit_event
  by_cases hnf : (lookupEvent db eid).isNone
  · simp only [if_pos hnf]
    exact ⟨hval, huniq, hbnd, hex, hno⟩
  · simp only [hnf, Bool.false_eq_true, if_neg, if_false]
    by_cases hge : ns ≥ ne
    · simp only [if_pos hge]
      exact ⟨hval, huniq, hbnd, hex, hno⟩
    · simp only [if_neg hge]
      by_cases hemp : (edit_conflicting db eid ns ne).isEmpty
      · simp only [if_pos hemp]
        have hcc := edit_conflicting_isEmpty hemp
        have hns : ns < ne := lt_of_not_ge hge
        refine ⟨?_, ?_, ?_, ?_, ?_⟩
        · intro e' he'
          rcases List.mem_map.1 he' with ⟨e0, he0, rfl⟩
          by_cases hc : e0.event_id = eid
          · have := @updEvent_times eid title ns ne desc e0 hc
            rw [this.1, this.2]
            exact hns
          · rw [updEvent_eq_self hc]
            exact hval e0 he0
        · have hu' : db.events.Pairwise
              (fun x y => x.event_id ≠ y.event_id) := huniq
          have : (db.events.map (updEvent eid title ns ne desc)).Pairwise
              (fun x y => x.event_id ≠ y.event_id) := by
            rw [List.pairwise_map]
            exact hu'.imp (fun hxy => by
              rw [updEvent_id, updEvent_id]; exact hxy)
          exact this
        · intro e' he'
          rcases List.mem_map.1 he' with ⟨e0, he0, rfl⟩
          rw [updEvent_id]
          exact hbnd e0 he0
        · intro a ha
          obtain ⟨e0, he0, hid0⟩ := hex a ha
          exact ⟨updEvent eid title ns ne desc e0,
            List.mem_map_of_mem _ he0, by rw [updEvent_id]; exact hid0⟩
        · intro a1 ha1 a2 ha2 hne12 hrr e1' he1' hid1 e2' he2' hid2
          rcases List.mem_map.1 he1' with ⟨e1, he1, rfl⟩
          rcases List.mem_map.1 he2' with ⟨e2, he2, rfl⟩
          rw [updEvent_id] at hid1 hid2
          by_cases hc1 : a1.event_id = eid <;> by_cases hc2 : a2.event_id = eid
          · exact absurd (hc1.trans hc2.symm) hne12
          · -- a1 belongs to the edited event; a2 does not
            have ht1 := @updEvent_times eid title ns ne desc e1
              (hid1.trans hc1)
            have ht2 := @updEvent_eq_self eid title ns ne desc e2
              (fun hh : e2.event_id = eid => hc2 (hid2 ▸ hh))
            rw [ht1.1, ht1.2, ht2]
            have hnil := hcc a1 ha1 hc1
            have hno2 := (check_conflicts_eq_nil_iff db eid a1.resource_id
              ns ne).1 hnil a2 ha2 hrr.symm
              (fun hh => hc2 hh) e2 he2 hid2
            intro hov
            exact hno2 ((overlaps4_symm ns ne e2.start_time e2.end_time hns
              (hval e2 he2)).1 hov)
          · -- a2 belongs to the edited event; a1 does not
            have ht2 := @updEvent_times eid title ns ne desc e2
              (hid2.trans hc2)
            have ht1 := @updEvent_eq_self eid title ns ne desc e1
              (fun hh : e1.event_id = eid => hc1 (hid1 ▸ hh))
            rw [ht2.1, ht2.2, ht1]
            have hnil := hcc a2 ha2 hc2
            exact (check_conflicts_eq_nil_iff db eid a2.resource_id
              ns ne).1 hnil a1 ha1 hrr (fun hh => hc1 hh) e1 he1 hid1
          · -- neither allocation belongs to the edited event
            have ht1 := @updEvent_eq_self eid title ns ne desc e1
              (fun hh : e1.event_id = eid => hc1 (hid1 ▸ hh))
            have ht2 := @updEvent_eq_self eid title ns ne desc e2
              (fun hh : e2.event_id = eid => hc2 (hid2 ▸ hh))
            rw [ht1, ht2]
            exact hno a1 ha1 a2 ha2 hne12 hrr e1 he1 hid1 e2 he2 hid2
      · simp only [hemp, Bool.false_eq_true, if_neg, if_false]
        split <;> exact ⟨hval, huniq, hbnd, hex, hno⟩

/-- `add_allocation` preserves the lifecycle invariant: the insert is
guarded by an empty `check_conflicts` run against the owning event's
interval, which rules out overlap with every other allocation on the
resource. -/
theorem storeInv_add_allocation (db : DB) (h : StoreInv db)
    (eid rid : Nat) : StoreInv (add_allocation db eid rid).1 := by
  obtain ⟨hval, huniq, hbnd, hex, hno⟩ := h
  unfold add_allocation
  by_cases hdup : db.allocations.any
      (fun a => a.event_id == eid && a.resource_id == rid)
  · simp only [if_pos hdup]
    exact ⟨hval, huniq, hbnd, hex, hno⟩
  · simp only [hdup, Bool.false_eq_true, if_neg, if_false]
    rcases hl : lookupEvent db eid with _ | ev
    · exact ⟨hval, huniq, hbnd, hex, hno⟩
    · dsimp only
      obtain ⟨hevm, hevid⟩ := lookupEvent_some hl
      by_cases hcc : (check_conflicts db eid rid
          ev.start_time ev.end_time).isEmpty
      · simp only [if_pos hcc]
        have hnil : check_conflicts db eid rid ev.start_time ev.end_time
            = [] := List.isEmpty_iff.1 hcc
        refine ⟨hval, huniq, hbnd, ?_, ?_⟩
        · intro a ha
          rcases List.mem_append.1 ha with h1 | h1
          · exact hex a h1
          · simp only [List.mem_singleton] at h1
            subst h1
            exact ⟨ev, hevm, hevid⟩
        · have hu' : db.events.Pairwise
              (fun x y => x.event_id ≠ y.event_id) := huniq
          intro a1 ha1 a2 ha2 hne12 hrr e1 he1 hid1 e2 he2 hid2
          rcases List.mem_append.1 ha1 with h1 | h1 <;>
            rcases List.mem_append.1 ha2 with h2 | h2
          · exact hno a1 h1 a2 h2 hne12 hrr e1 he1 hid1 e2 he2 hid2
          · -- a2 is the new allocation
            simp only [List.mem_singleton] at h2
            subst h2
            have he2ev : e2 = ev := pairwise_key_inj
              (fun x => x.event_id) hu' he2 hevm
              (by show e2.event_id = ev.event_id; rw [hevid]; exact hid2)
            subst he2ev
            exact (check_conflicts_eq_nil_iff db eid rid
              e2.start_time e2.end_time).1 hnil a1 h1 hrr
              (fun hh => hne12 hh) e1 he1 hid1
          · -- a1 is the new allocation
            simp only [List.mem_singleton] at h1
            subst h1
            have he1ev : e1 = ev := pairwise_key_inj
              (fun x => x.event_id) hu' he1 hevm
              (by show e1.event_id = ev.event_id; rw [hevid]; exact hid1)
            subst he1ev
            have hn2 := (check_conflicts_eq_nil_iff db eid rid
              e1.start_time e1.end_time).1 hnil a2 h2 hrr.symm
              (fun hh => hne12 hh.symm) e2 he2 hid2
            intro hov
            exact hn2 ((overlaps4_symm e1.start_time e1.end_time
              e2.start_time e2.end_time (hval e1 hevm) (hval e2 he2)).1 hov)
          · simp only [List.mem_singleton] at h1 h2
            subst h1; subst h2
            exact absurd rfl hne12
      · simp only [hcc, Bool.false_eq_true, if_neg, if_false]
        exact ⟨hval, huniq, hbnd, hex, hno⟩

/-- `delete_event` preserves the lifecycle invariant: the cascade removes
the event's allocations along with the event, so referential integrity and
the pairwise no-overlap property restrict to sublists. -/
theorem storeInv_delete_event (db : DB) (h : StoreInv db) (i : Nat) :
    StoreInv (delete_event db i).1 := by
  obtain ⟨hval, huniq, hbnd, hex, hno⟩ := h
  unfold delete_event
  by_cases hnf : (lookupEvent db i).isNone
  · simp only [if_pos hnf]
    exact ⟨hval, huniq, hbnd, hex, hno⟩
  · simp only [hnf, Bool.false_eq_true, if_neg, if_false]
    refine ⟨?_, ?_, ?_, ?_, ?_⟩
    · intro e he
      exact hval e (List.mem_of_mem_filter he)
    · exact List.Pairwise.filter _ huniq
    · intro e he
      exact hbnd e (List.mem_of_mem_filter he)
    · intro a ha
      have ham := List.mem_filter.1 ha
      obtain ⟨e0, he0, hid0⟩ := hex a ham.1
      refine ⟨e0, List.mem_filter.2 ⟨he0, ?_⟩, hid0⟩
      have : a.event_id ≠ i := by simpa using ham.2
      simp [hid0, this]
    · intro a1 ha1 a2 ha2 hne12 hrr e1 he1 hid1 e2 he2 hid2
      exact hno a1 (List.mem_of_mem_filter ha1) a2
        (List.mem_of_mem_filter ha2) hne12 hrr e1
        (List.mem_of_mem_filter he1) hid1 e2
        (List.mem_of_mem_filter he2) hid2

/-- `delete_resource` preserves the lifecycle invariant (events untouched,
allocations restricted to a sublist). -/
theorem storeInv_delete_resource (db : DB) (h : StoreInv db) (i : Nat) :
    StoreInv (delete_resource db i).1 := by
  obtain ⟨hval, huniq, hbnd, hex, hno⟩ := h
  unfold delete_resource
  by_cases hnf : (lookupResource db i).isNone
  · simp only [if_pos hnf]
    exact ⟨hval, huniq, hbnd, hex, hno⟩
  · simp only [hnf, Bool.false_eq_true, if_neg, if_false]
    refine ⟨hval, huniq, hbnd, ?_, ?_⟩
    · intro a ha
      exact hex a (List.mem_of_mem_filter ha)
    · intro a1 ha1 a2 ha2 hne12 hrr e1 he1 hid1 e2 he2 hid2
      exact hno a1 (List.mem_of_mem_filter ha1) a2
        (List.mem_of_mem_filter ha2) hne12 hrr e1 he1 hid1 e2 he2 hid2

/-- `add_resource` preserves the lifecycle invariant (it touches neither
events nor allocations). -/
theorem storeInv_add_resource (db : DB) (h : StoreInv db)
    (name ty : String) : StoreInv (add_resource db name ty) := by
  obtain ⟨hval, huniq, hbnd, hex, hno⟩ := h
  exact ⟨hval, huniq, hbnd, hex, hno⟩

/-- `delete_allocation` preserves the lifecycle invariant. -/
theorem storeInv_delete_allocation (db : DB) (h : StoreInv db) (i : Nat) :
    StoreInv (delete_allocation db i).1 := by
  obtain ⟨hval, huniq, hbnd, hex, hno⟩ := h
  unfold delete_allocation
  by_cases hm : db.allocations.any (fun a => a.allocation_id == i)
  · simp only [if_pos hm]
    refine ⟨hval, huniq, hbnd, ?_, ?_⟩
    · intro a ha
      exact hex a (List.mem_of_mem_filter ha)
    · intro a1 ha1 a2 ha2 hne12 hrr e1 he1 hid1 e2 he2 hid2
      exact hno a1 (List.mem_of_mem_filter ha1) a2
        (List.mem_of_mem_filter ha2) hne12 hrr e1 he1 hid1 e2 he2 hid2
  · simp only [hm, Bool.false_eq_true, if_neg, if_false]
    exact ⟨hval, huniq, hbnd, hex, hno⟩

/-- Every single request preserves the lifecycle invariant. -/
theorem storeInv_step (db : DB) (h : StoreInv db) (op : Op) :
    StoreInv (step db op) := by
  cases op with
  | addEvent t s e d => exact storeInv_add_event db h t s e d
  | editEvent i t ns ne d => exact storeInv_edit_event db h i t ns ne d
  | deleteEvent i => exact storeInv_delete_event db h i
  | addResource n ty => exact storeInv_add_resource db h n ty
  | deleteResource i => exact storeInv_delete_resource db h i
  | addAllocation e r => exact storeInv_add_allocation db h e r
  | deleteAllocation i => exact storeInv_delete_allocation db h i

/-- Every store reachable from the empty store satisfies the lifecycle
invariant. -/
theorem storeInv_run (ops : List Op) : StoreInv (run ops) := by
  unfold run
  suffices hgen : ∀ db : DB, StoreInv db → StoreInv (ops.foldl step db) from
    hgen DB.init storeInv_init
  induction ops with
  | nil => exact fun db h => h
  | cons op ops ih => exact fun db h => ih (step db op) (storeInv_step db h op)

/-- C3: in every store reachable from the empty store by any sequence of
lifecycle requests (event create/edit/delete, resource create/delete,
allocation create/delete), any two stored allocations on the same resource
that belong to different events have owning-event intervals on which the
overlap predicate is false. -/
theorem c3_no_double_booking (ops : List Op) :
    ∀ a1 ∈ (run ops).allocations, ∀ a2 ∈ (run ops).allocations,
      a1.event_id ≠ a2.event_id → a1.resource_id = a2.resource_id →
      ∀ e1 ∈ (run ops).events, e1.event_id = a1.event_id →
      ∀ e2 ∈ (run ops).events, e2.event_id = a2.event_id →
      ¬ overlaps4 e1.start_time e1.end_time e2.start_time e2.end_time :=
  (storeInv_run ops).2.2.2.2

/-- C3 witness: after creating events `[0,10)` and `[20,30)` and allocating
both to the same resource, the two stored allocations' owning events do not
overlap. -/
theorem c3_no_double_booking_witness : ¬ overlaps4 0 10 20 30 :=
  c3_no_double_booking
    [.addEvent "A" 0 10 "", .addEvent "B" 20 30 "", .addResource "R" "room",
     .addAllocation 1 1, .addAllocation 2 1]
    ⟨1, 1, 1, some 0, some 10⟩ (by decide)
    ⟨2, 2, 1, some 20, some 30⟩ (by decide)
    (by decide) (by decide)
    ⟨1, "A", 0, 10, ""⟩ (by decide) (by decide)
    ⟨2, "B", 20, 30, ""⟩ (by decide) (by decide)

/-- `countP` distributes over `flatten` as a sum of per-list counts. -/
theorem countP_flatten {α : Type} (p : α → Bool) (ls : List (List α)) :
    ls.flatten.countP p = (ls.map (fun l => l.countP p)).sum := by
  induction ls with
  | nil => rfl
  | cons l ls ih => simp [List.flatten_cons, List.countP_append, ih]

/-- A list that is pairwise related by `R`, with a predicate no two
`R`-related elements can share, counts exactly one satisfying element as
soon as one member satisfies it. -/
theorem countP_eq_one_of_pairwise {α : Type} {R : α → α → Prop}
    (P : α → Bool) (hP : ∀ x y, P x = true → P y = true → ¬ R x y) :
    ∀ l : List α, l.Pairwise R → ∀ a, a ∈ l → P a = true →
      l.countP P = 1 := by
  intro l
  induction l with
  | nil => intro _ a ha _; cases ha
  | cons x l ih =>
    intro hl a ha hPa
    rcases List.pairwise_cons.1 hl with ⟨hx, hl'⟩
    rcases List.mem_cons.1 ha with hax | ha'
    · subst hax
      have h0 : l.countP P = 0 :=
        List.countP_eq_zero.2 (fun y hy hPy => absurd (hx y hy) (hP a y hPa hPy))
      simp [List.countP_cons, h0, hPa]
    · have hPx : ¬ P x = true := fun hc => hP x a hc hPa (hx a ha')
      simp [List.countP_cons, ih hl' a ha' hPa, hPx]

/-- Summing an indicator over a list counts the satisfying elements. -/
theorem sum_map_ite_eq_countP {α : Type} (l : List α) (P : α → Bool) :
    (l.map (fun a => if P a = true then 1 else 0)).sum = l.countP P := by
  induction l with
  | nil => rfl
  | cons a l ih =>
    simp only [List.map_cons, List.sum_cons, List.countP_cons, ih]
    by_cases h : P a = true <;> simp [h, Nat.add_comm]

/-- When every allocation's owning event exists, the `/conflicts` view
succeeds and is the concatenation of each allocation's entries. -/
theorem conflicts_view_eq (db : DB)
    (hex : ∀ a ∈ db.allocations, (lookupEvent db a.event_id).isSome) :
    conflicts_view db =
      some ((db.allocations.map (conflictEntriesFor db)).flatten) := by
  have hf : ∀ a ∈ db.allocations,
      (lookupEvent db a.event_id).map (fun ev =>
        (check_conflicts db a.event_id a.resource_id
            ev.start_time ev.end_time).map
          (fun c => ((ev, lookupEvent db c.event_id,
              lookupResource db a.resource_id) : ConflictEntry)))
        = some (conflictEntriesFor db a) := by
    intro a ha
    rcases hl : lookupEvent db a.event_id with _ | ev
    · exact absurd (hex a ha) (by simp [hl])
    · unfold conflictEntriesFor
      rw [hl]
      rfl
  unfold conflicts_view
  rw [mapM_eq_some_map _ (conflictEntriesFor db) _ hf]
  rfl

/-- Both conjuncts of a true Bool conjunction. -/
theorem bool_and_parts {a b : Bool} (h : (a && b) = true) :
    a = true ∧ b = true := by
  simp only [Bool.and_eq_true] at h
  exact h

/-- Core count for the `/conflicts` listing: under the database integrity
assumptions, given two distinct conflicting allocations `a1`, `a2` on a
shared existing resource with owning events `e1`, `e2`, the flattened
entries contain the line oriented `(event1 = e1, event2 = e2, resource = r)`
exactly once. -/
theorem conflicts_count_aux (db : DB)
    (hids : EventIdsUnique db)
    (hrids : db.resources.Pairwise (fun x y => x.resource_id ≠ y.resource_id))
    (hpairs : db.allocations.Pairwise
      (fun x y => x.event_id ≠ y.event_id ∨ x.resource_id ≠ y.resource_id))
    (hex : AllocEventsExist db)
    (a1 a2 : EventResourceAllocation)
    (h1 : a1 ∈ db.allocations) (h2 : a2 ∈ db.allocations)
    (hne : a1.event_id ≠ a2.event_id) (hr : a1.resource_id = a2.resource_id)
    (e1 e2 : Event) (he1 : e1 ∈ db.events) (hid1 : e1.event_id = a1.event_id)
    (he2 : e2 ∈ db.events) (hid2 : e2.event_id = a2.event_id)
    (r : Resource) (hrm : r ∈ db.resources)
    (hrid : r.resource_id = a1.resource_id)
    (hov : overlaps4 e2.start_time e2.end_time e1.start_time e1.end_time) :
    ((db.allocations.map (conflictEntriesFor db)).flatten).countP
      (fun x => decide (x = ((e1, some e2, some r) : ConflictEntry))) = 1 := by
  have hids' : db.events.Pairwise (fun x y => x.event_id ≠ y.event_id) := hids
  have hlook2 : lookupEvent db a2.event_id = some e2 := by
    have h := lookupEvent_of_mem hids he2
    rw [hid2] at h
    exact h
  have hlookr : lookupResource db a1.resource_id = some r := by
    have h := find?_key_eq_some (fun x => x.resource_id) hrids hrm
    unfold lookupResource
    rw [← hrid]
    exact h
  have hstep : ((db.allocations.map (conflictEntriesFor db)).flatten).countP
        (fun x => decide (x = ((e1, some e2, some r) : ConflictEntry)))
      = (db.allocations.map (fun a => (conflictEntriesFor db a).countP
          (fun x => decide (x = ((e1, some e2, some r) : ConflictEntry))))).sum := by
    rw [countP_flatten, List.map_map]
    rfl
  rw [hstep]
  have hper : ∀ a ∈ db.allocations,
      (conflictEntriesFor db a).countP
        (fun x => decide (x = ((e1, some e2, some r) : ConflictEntry)))
      = if (decide (a.event_id = a1.event_id ∧ a.resource_id = a1.resource_id))
          = true then 1 else 0 := by
    intro a ha
    obtain ⟨ea, hea, heaid⟩ := hex a ha
    have hlooka : lookupEvent db a.event_id = some ea := by
      have h := lookupEvent_of_mem hids hea
      rw [heaid] at h
      exact h
    unfold conflictEntriesFor
    rw [hlooka, Option.elim_some]
    by_cases hmatch : a.event_id = a1.event_id ∧ a.resource_id = a1.resource_id
    · rw [if_pos (decide_eq_true hmatch)]
      have heae1 : ea = e1 := by
        refine pairwise_key_inj (fun x => x.event_id) hids' hea he1 ?_
        show ea.event_id = e1.event_id
        rw [heaid, hmatch.1, ← hid1]
      rw [heae1]
      have hthird : lookupResource db a.resource_id = some r := by
        rw [hmatch.2]
        exact hlookr
      rw [List.countP_map]
      unfold check_conflicts
      rw [List.countP_filter]
      refine countP_eq_one_of_pairwise _ ?_ db.allocations hpairs a2 h2 ?_
      · intro x y hx hy
        have hx1 := (bool_and_parts hx).1
        have hx2 := (bool_and_parts (bool_and_parts
          (bool_and_parts hx).2).1).1
        have hy1 := (bool_and_parts hy).1
        have hy2 := (bool_and_parts (bool_and_parts
          (bool_and_parts hy).2).1).1
        have hxeq := of_decide_eq_true hx1
        have hyeq := of_decide_eq_true hy1
        have hxl : lookupEvent db x.event_id = some e2 :=
          congrArg (fun z => z.2.1) hxeq
        have hyl : lookupEvent db y.event_id = some e2 :=
          congrArg (fun z => z.2.1) hyeq
        have hxid : x.event_id = a2.event_id := by
          obtain ⟨_, hi⟩ := lookupEvent_some hxl
          rw [← hi]
          exact hid2
        have hyid : y.event_id = a2.event_id := by
          obtain ⟨_, hi⟩ := lookupEvent_some hyl
          rw [← hi]
          exact hid2
        have hxr : x.resource_id = a.resource_id := beq_iff_eq.1 hx2
        have hyr : y.resource_id = a.resource_id := beq_iff_eq.1 hy2
        rintro (hcase | hcase)
        · exact hcase (hxid.trans hyid.symm)
        · exact hcase (hxr.trans hyr.symm)
      · have hD : decide ((e1, lookupEvent db a2.event_id,
            lookupResource db a.resource_id)
              = ((e1, some e2, some r) : ConflictEntry)) = true :=
          decide_eq_true (by rw [hlook2, hthird])
        have hA : (a2.resource_id == a.resource_id) = true :=
          beq_iff_eq.2 (hr.symm.trans hmatch.2.symm)
        have hB : (a2.event_id != a.event_id) = true :=
          bne_iff_ne.2 (fun hh => hne (hmatch.1.symm.trans hh.symm))
        have hC : (db.events.any (fun ev => ev.event_id == a2.event_id &&
            decide (overlaps4 ev.start_time ev.end_time
              e1.start_time e1.end_time))) = true :=
          List.any_eq_true.2 ⟨e2, he2, by
            simp only [Bool.and_eq_true]
            exact ⟨beq_iff_eq.2 hid2, decide_eq_true hov⟩⟩
        simp only [Function.comp, hD, hA, hB, hC, Bool.and_self]
    · rw [if_neg (by simpa using hmatch)]
      refine List.countP_eq_zero.2 ?_
      intro x hx hPx
      rcases List.mem_map.1 hx with ⟨c, hc, rfl⟩
      have hceq := of_decide_eq_true hPx
      have hfst : ea = e1 := congrArg (fun z => z.1) hceq
      have hthird : lookupResource db a.resource_id = some r :=
        congrArg (fun z => z.2.2) hceq
      obtain ⟨_, hri⟩ := lookupResource_some hthird
      refine hmatch ⟨?_, ?_⟩
      · rw [← heaid, hfst, hid1]
      · rw [← hri, hrid]
  rw [List.map_congr_left hper, sum_map_ite_eq_countP]
  refine countP_eq_one_of_pairwise _ ?_ db.allocations hpairs a1 h1 ?_
  · intro x y hx hy
    have hx' := of_decide_eq_true hx
    have hy' := of_decide_eq_true hy
    rintro (hcase | hcase)
    · exact hcase (hx'.1.trans hy'.1.symm)
    · exact hcase (hx'.2.trans hy'.2.symm)
  · exact decide_eq_true ⟨rfl, rfl⟩

/-- C10: on a store whose events are all valid (`start < end`) and which
satisfies the schema's integrity constraints (unique event and resource
primary keys, at most one allocation per (event, resource) pair, every
allocation's owning event present), the overlap predicate is symmetric on
the owning events, and the `/conflicts` listing emits each conflicting pair
of allocations exactly twice: exactly one entry oriented
`(event1 = e1, event2 = e2, resource = r)` and exactly one oriented
`(event1 = e2, event2 = e1, resource = r)`. -/
theorem c10_conflicts_double_emission (db : DB)
    (hval : EventsValid db)
    (hids : EventIdsUnique db)
    (hrids : db.resources.Pairwise (fun x y => x.resource_id ≠ y.resource_id))
    (hpairs : db.allocations.Pairwise
      (fun x y => x.event_id ≠ y.event_id ∨ x.resource_id ≠ y.resource_id))
    (hex : AllocEventsExist db)
    (a1 a2 : EventResourceAllocation)
    (h1 : a1 ∈ db.allocations) (h2 : a2 ∈ db.allocations)
    (hne : a1.event_id ≠ a2.event_id) (hr : a1.resource_id = a2.resource_id)
    (e1 e2 : Event) (he1 : e1 ∈ db.events) (hid1 : e1.event_id = a1.event_id)
    (he2 : e2 ∈ db.events) (hid2 : e2.event_id = a2.event_id)
    (r : Resource) (hrm : r ∈ db.resources)
    (hrid : r.resource_id = a1.resource_id)
    (hov : overlaps4 e1.start_time e1.end_time e2.start_time e2.end_time) :
    overlaps4 e2.start_time e2.end_time e1.start_time e1.end_time ∧
    ∃ entries, conflicts_view db = some entries ∧
      entries.countP
        (fun x => decide (x = ((e1, some e2, some r) : ConflictEntry))) = 1 ∧
      entries.countP
        (fun x => decide (x = ((e2, some e1, some r) : ConflictEntry))) = 1 := by
  have hov21 : overlaps4 e2.start_time e2.end_time e1.start_time e1.end_time :=
    (overlaps4_symm e1.start_time e1.end_time e2.start_time e2.end_time
      (hval e1 he1) (hval e2 he2)).1 hov
  have hex' : ∀ a ∈ db.allocations, (lookupEvent db a.event_id).isSome := by
    intro a ha
    obtain ⟨e, he, hid⟩ := hex a ha
    rw [← hid, lookupEvent_of_mem hids he]
    rfl
  refine ⟨hov21, (db.allocations.map (conflictEntriesFor db)).flatten,
    conflicts_view_eq db hex', ?_, ?_⟩
  · exact conflicts_count_aux db hids hrids hpairs hex a1 a2 h1 h2 hne hr
      e1 e2 he1 hid1 he2 hid2 r hrm hrid hov21
  · exact conflicts_count_aux db hids hrids hpairs hex a2 a1 h2 h1 hne.symm
      hr.symm e2 e1 he2 hid2 he1 hid1 r hrm (hrid.trans hr) hov

/-- C10 witness: on a concrete store with two overlapping events `A`
`[0, 10)` and `B` `[5, 15)` both allocated to resource 1, the predicate is
symmetric and the conflicts listing holds exactly one `(A, B, R)` entry and
exactly one `(B, A, R)` entry. -/
theorem c10_conflicts_double_emission_witness :
    overlaps4 5 15 0 10 ∧
    ∃ entries,
      conflicts_view ⟨[⟨1, "A", 0, 10, ""⟩, ⟨2, "B", 5, 15, ""⟩],
        [⟨1, "R", "room"⟩],
        [⟨1, 1, 1, some 0, some 10⟩, ⟨2, 2, 1, some 5, some 15⟩],
        3, 2, 3⟩ = some entries ∧
      entries.countP (fun x => decide (x =
        ((⟨1, "A", 0, 10, ""⟩, some ⟨2, "B", 5, 15, ""⟩,
          some ⟨1, "R", "room"⟩) : ConflictEntry))) = 1 ∧
      entries.countP (fun x => decide (x =
        ((⟨2, "B", 5, 15, ""⟩, some ⟨1, "A", 0, 10, ""⟩,
          some ⟨1, "R", "room"⟩) : ConflictEntry))) = 1 :=
  c10_conflicts_double_emission
    ⟨[⟨1, "A", 0, 10, ""⟩, ⟨2, "B", 5, 15, ""⟩], [⟨1, "R", "room"⟩],
      [⟨1, 1, 1, some 0, some 10⟩, ⟨2, 2, 1, some 5, some 15⟩], 3, 2, 3⟩
    (by unfold EventsValid; decide) (by unfold EventIdsUnique; decide)
    (by decide) (by decide) (by unfold AllocEventsExist; decide)
    ⟨1, 1, 1, some 0, some 10⟩ ⟨2, 2, 1, some 5, some 15⟩
    (by decide) (by decide) (by decide) (by decide)
    ⟨1, "A", 0, 10, ""⟩ ⟨2, "B", 5, 15, ""⟩
    (by decide) (by decide) (by decide) (by decide)
    ⟨1, "R", "room"⟩ (by decide) (by decide) (by decide)
